import Mathlib

/-!
Shallow embedding of the Marcacao-Mestre playback/transition engine core
(`src/lib/beatScheduler.ts`, `src/lib/deck.ts`, `src/lib/queueManager.ts`,
`src/lib/dualDeckEngine.ts`) with proofs of its specified properties.

Numbers are modelled over the rationals (the source computes with JS
numbers; the claims under verification are exact algebraic statements, so
the rational embedding is faithful on all finite inputs), except the
equal-power crossfade math which involves `cos`/`sin` and is modelled
over the reals.  The monotonic `AudioContext.currentTime` clock is passed
explicitly as a `now : ℚ` argument to each operation that reads it.
-/

/-! ### Data model (`src/types/index.ts`) -/

/-- Time signature of a beat map. -/
structure TimeSignature where
  numerator : ℕ
  denominator : ℕ
  deriving DecidableEq, Repr

/-- A single tempo-change event parsed from a MIDI beat map. -/
structure TempoEvent where
  tick : ℕ
  bpm : ℚ
  timeSeconds : ℚ
  deriving DecidableEq, Repr

/-- Beat map extracted from MIDI — drives all scheduling and display. -/
structure BeatMap where
  timeSignature : TimeSignature
  tempoEvents : List TempoEvent
  ticksPerBeat : ℕ
  deriving DecidableEq, Repr

/-- A single audio track.  `audioBlobDecode` models the outcome of handing
`track.audioBlob` to the external `decodeAudioData` browser API: `some d`
is a successfully decoded audio buffer of duration `d` seconds, `none` is
a decode failure (rejected promise). -/
structure Track where
  id : String
  name : String
  audioBlobDecode : Option ℚ
  beatMap : BeatMap
  duration : ℚ
  deriving DecidableEq, Repr

/-! ### BeatMath (`src/lib/beatScheduler.ts`) -/

/-- Result of `getNextDownbeat`. -/
structure DownbeatInfo where
  timeSeconds : ℚ
  bar : ℤ
  deriving DecidableEq, Repr

/-- `getBpmAtTimeFromMap`: BPM of the last tempo event at or before the
given time (the source scans the ordered event list, breaking at the
first event past `timeSeconds`). -/
def getBpmAtTimeFromMap (beatMap : BeatMap) (timeSeconds : ℚ) : ℚ :=
  go beatMap.tempoEvents (((beatMap.tempoEvents.head?).map TempoEvent.bpm).getD 120)
where
  go : List TempoEvent → ℚ → ℚ
    | [], bpm => bpm
    | e :: rest, bpm => if e.timeSeconds ≤ timeSeconds then go rest e.bpm else bpm

/-- `getNativeBpm`: BPM of the first tempo event, defaulting to 120. -/
def getNativeBpm (beatMap : BeatMap) : ℚ :=
  ((beatMap.tempoEvents.head?).map TempoEvent.bpm).getD 120

/-- Alias of `getNativeBpm` for use inside the `Deck` accessor of the same
name (where the accessor being defined would otherwise shadow it). -/
def nativeBpmOfBeatMap : BeatMap → ℚ := getNativeBpm

/-- `getNextDownbeat`: start time of the bar after the one containing
`currentTimeSeconds` (strict floor+1 semantics). -/
def getNextDownbeat (beatMap : BeatMap) (currentTimeSeconds : ℚ)
    (effectiveBpm : Option ℚ) : DownbeatInfo :=
  let bpm := effectiveBpm.getD (getBpmAtTimeFromMap beatMap currentTimeSeconds)
  let beatsPerBar : ℚ := beatMap.timeSignature.numerator
  let secondsPerBeat := 60 / bpm
  let barDuration := beatsPerBar * secondsPerBeat
  let currentBar := ⌊currentTimeSeconds / barDuration⌋
  let nextBar := currentBar + 1
  { timeSeconds := (nextBar : ℚ) * barDuration, bar := nextBar + 1 }

/-- C4: `getNextDownbeat` applied exactly at a bar boundary (a time that is
an integer multiple of the bar duration) returns the start of the
following bar, `(⌊t/barDuration⌋ + 1) * barDuration`, strictly greater
than `t` — never `t` itself. -/
theorem getNextDownbeat_strict_next (beatMap : BeatMap) (bpm t barDuration : ℚ) (k : ℤ)
    (hbpm : 0 < bpm) (hsig : 0 < beatMap.timeSignature.numerator)
    (hbar : barDuration = (beatMap.timeSignature.numerator : ℚ) * (60 / bpm))
    (ht : t = (k : ℚ) * barDuration) :
    (getNextDownbeat beatMap t (some bpm)).timeSeconds
        = ((⌊t / barDuration⌋ : ℚ) + 1) * barDuration
      ∧ t < (getNextDownbeat beatMap t (some bpm)).timeSeconds := by
  have hbarpos : 0 < barDuration := by
    rw [hbar]
    have hn : (0 : ℚ) < (beatMap.timeSignature.numerator : ℚ) := by
      exact_mod_cast hsig
    positivity
  have hbarne : barDuration ≠ 0 := ne_of_gt hbarpos
  have hdiv : t / barDuration = (k : ℚ) := by
    rw [ht, mul_div_assoc, div_self hbarne, mul_one]
  have hfloor : ⌊t / barDuration⌋ = k := by
    rw [hdiv]; exact Int.floor_intCast k
  have hval : (getNextDownbeat beatMap t (some bpm)).timeSeconds
      = ((⌊t / barDuration⌋ : ℚ) + 1) * barDuration := by
    simp only [getNextDownbeat, Option.getD_some, hbar]
    push_cast
    ring_nf
  refine ⟨hval, ?_⟩
  rw [hval, hfloor, ht]
  have : (k : ℚ) < (k : ℚ) + 1 := by linarith
  exact (mul_lt_mul_of_pos_right this hbarpos)

/-- Witness for C4 at a concrete beat map: 4/4 at 120 BPM has 2-second
bars; at `t = 6` (the downbeat of bar 4) the next downbeat is `8`. -/
theorem getNextDownbeat_strict_next_witness :
    (0 : ℚ) < 120
      ∧ 0 < (BeatMap.mk ⟨4, 4⟩ [⟨0, 120, 0⟩] 480).timeSignature.numerator
      ∧ ((getNextDownbeat (BeatMap.mk ⟨4, 4⟩ [⟨0, 120, 0⟩] 480) 6 (some 120)).timeSeconds
            = ((⌊(6 : ℚ) / 2⌋ : ℚ) + 1) * 2
          ∧ (6 : ℚ) < (getNextDownbeat (BeatMap.mk ⟨4, 4⟩ [⟨0, 120, 0⟩] 480) 6 (some 120)).timeSeconds) :=
  ⟨by norm_num, by norm_num,
    getNextDownbeat_strict_next (BeatMap.mk ⟨4, 4⟩ [⟨0, 120, 0⟩] 480) 120 6 2 3
      (by norm_num) (by norm_num) (by norm_num) (by norm_num)⟩

/-! ### Channel (`src/lib/deck.ts`) -/

/-- Lifecycle state of a deck. -/
inductive DeckState where
  | idle | loading | playing | paused | fadingIn | fadingOut
  deriving DecidableEq, Repr

/-- Observable state of one `Deck`.  `audioBuffer` is the duration of the
decoded buffer (the only observable the engine reads from it); `shifter`
records whether a SoundTouch `PitchShifter` processor is attached.  The
`AudioContext` clock is passed as an explicit `now` argument to the
operations that read `audioContext.currentTime`. -/
structure Deck where
  audioBuffer : Option ℚ := none
  shifter : Bool := false
  track : Option Track := none
  state : DeckState := .idle
  playbackRate : ℚ := 1
  volume : ℚ := 1
  pausedAt : ℚ := 0
  playStartAudioTime : ℚ := 0
  accumulatedOffset : ℚ := 0
  deriving DecidableEq, Repr

/-- `isPlaying()`: playing or in either fading sub-state. -/
def Deck.isPlaying (d : Deck) : Bool :=
  d.state = DeckState.playing || d.state = DeckState.fadingIn
    || d.state = DeckState.fadingOut

/-- `isPaused()` accessor. -/
def Deck.isPaused (d : Deck) : Bool :=
  d.state = DeckState.paused

/-- `loadTrack(track)`: sets `loading` and the new track, then awaits the
blob decode.  On success it attaches the buffer and returns to `idle`
(`true` = resolved promise); on decode failure the promise rejects
(`false`) and the fields mutated so far keep their new values. -/
def Deck.loadTrack (d : Deck) (t : Track) : Deck × Bool :=
  let d1 := { d with state := DeckState.loading, track := some t }
  match t.audioBlobDecode with
  | some buf => ({ d1 with audioBuffer := some buf, state := DeckState.idle }, true)
  | none => (d1, false)

/-- `stop()`: releases the processor, resets position bookkeeping, `idle`. -/
def Deck.stop (d : Deck) : Deck :=
  { d with shifter := false, pausedAt := 0, accumulatedOffset := 0,
           playStartAudioTime := 0, state := DeckState.idle }

/-- `play(startOffset)`: no-op without a buffer and track; otherwise stops,
attaches a fresh processor at the current `playbackRate`, anchors manual
position tracking (`accumulatedOffset := startOffset`,
`playStartAudioTime := now`) and enters `playing`. -/
def Deck.play (d : Deck) (now startOffset : ℚ) : Deck :=
  if d.audioBuffer = none ∨ d.track = none then d
  else
    let d1 := d.stop
    { d1 with shifter := true, accumulatedOffset := startOffset,
              playStartAudioTime := now, state := DeckState.playing }

/-- `setVolume(volume, rampTime)`: stores the level; the ramp itself is
applied to the external Web Audio gain node, so the ramp time is not part
of deck state (it is captured where a claim is about it). -/
def Deck.setVolume (d : Deck) (v : ℚ) : Deck :=
  { d with volume := v }

/-- `setPlaybackRate(rate)`: if playing with a positive clock anchor, first
fold the elapsed time at the old rate into `accumulatedOffset` and
re-anchor `playStartAudioTime` to `now`, then apply the new rate. -/
def Deck.setPlaybackRate (d : Deck) (now rate : ℚ) : Deck :=
  let d1 :=
    if d.isPlaying = true ∧ 0 < d.playStartAudioTime then
      { d with accumulatedOffset :=
                 d.accumulatedOffset + (now - d.playStartAudioTime) * d.playbackRate,
               playStartAudioTime := now }
    else d
  { d1 with playbackRate := rate }

/-- `getPlaybackRate()` accessor. -/
def Deck.getPlaybackRate (d : Deck) : ℚ :=
  d.playbackRate

/-- `getCurrentTime()`: 0 without a buffer; the stored position when
paused; otherwise 0 without a processor, else the manually tracked
`accumulatedOffset + (now − playStartAudioTime) × playbackRate`, clamped
to the buffer duration. -/
def Deck.getCurrentTime (d : Deck) (now : ℚ) : ℚ :=
  if d.audioBuffer = none then 0
  else if d.isPlaying = false ∧ d.state = DeckState.paused then d.pausedAt
  else if d.shifter = false then 0
  else min (d.accumulatedOffset + (now - d.playStartAudioTime) * d.playbackRate)
    (d.audioBuffer.getD 0)

/-- `pause()`: only from playing/fading with a processor and buffer; saves
the computed position, releases the processor, enters `paused`. -/
def Deck.pause (d : Deck) (now : ℚ) : Deck :=
  if d.shifter = false ∨ d.audioBuffer = none then d
  else if ¬ (d.state = DeckState.playing ∨ d.state = DeckState.fadingIn
              ∨ d.state = DeckState.fadingOut) then d
  else { d with pausedAt := d.getCurrentTime now, shifter := false,
                state := DeckState.paused }

/-- `resume(fromPosition)`: only from `paused` with a buffer; replays at
the given or last-paused position. -/
def Deck.resume (d : Deck) (now : ℚ) (fromPosition : Option ℚ) : Deck :=
  if ¬ d.state = DeckState.paused ∨ d.audioBuffer = none then d
  else d.play now (fromPosition.getD d.pausedAt)

/-- `getBeatMap()` accessor. -/
def Deck.getBeatMap (d : Deck) : Option BeatMap :=
  d.track.map Track.beatMap

/-- `getNativeBpm()`: first tempo event's BPM of the loaded track, 120
without a track. -/
def Deck.getNativeBpm (d : Deck) : ℚ :=
  match d.track with
  | none => 120
  | some t => nativeBpmOfBeatMap t.beatMap

/-- `getEffectiveBpm()`: native BPM times the current playback rate. -/
def Deck.getEffectiveBpm (d : Deck) : ℚ :=
  d.getNativeBpm * d.playbackRate

/-- `getDuration()`: decoded buffer duration, 0 without a buffer. -/
def Deck.getDuration (d : Deck) : ℚ :=
  d.audioBuffer.getD 0

/-- `isFinished()`: false without buffer or processor, else computed
position within 50 ms of the buffer's end. -/
def Deck.isFinished (d : Deck) (now : ℚ) : Bool :=
  if d.audioBuffer = none then false
  else if d.shifter = false then false
  else d.audioBuffer.getD 0 - 1/20 ≤ d.getCurrentTime now

/-- `setState(state)` mutator. -/
def Deck.setState (d : Deck) (s : DeckState) : Deck :=
  { d with state := s }

/-! ### Position tracking across rate changes (C1)

A run of `setPlaybackRate` calls during playback is modelled as a list of
(clock time, new rate) events; `positionTrajectory` gives the value
`getCurrentTime()` would return at any clock time of that run. -/

/-- One `setPlaybackRate` call: the clock time at which it happens and the
rate it sets. -/
structure RateEvent where
  time : ℚ
  rate : ℚ
  deriving DecidableEq, Repr

/-- Deck state after a sequence of `setPlaybackRate` calls. -/
def applyRateEvents (d : Deck) : List RateEvent → Deck
  | [] => d
  | e :: es => applyRateEvents (d.setPlaybackRate e.time e.rate) es

/-- The value `getCurrentTime()` returns at clock time `t`, given the
pending `setPlaybackRate` calls `evs` (in clock order): calls at times
`≤ t` have already happened. -/
def positionTrajectory (d : Deck) : List RateEvent → ℚ → ℚ
  | [], t => d.getCurrentTime t
  | e :: es, t =>
    if t < e.time then d.getCurrentTime t
    else positionTrajectory (d.setPlaybackRate e.time e.rate) es t

theorem setPlaybackRate_state (d : Deck) (now r : ℚ) :
    (d.setPlaybackRate now r).state = d.state := by
  simp only [Deck.setPlaybackRate]
  split <;> rfl

theorem setPlaybackRate_isPlaying (d : Deck) (now r : ℚ) :
    (d.setPlaybackRate now r).isPlaying = d.isPlaying := by
  simp [Deck.isPlaying, setPlaybackRate_state]

theorem setPlaybackRate_rate (d : Deck) (now r : ℚ) :
    (d.setPlaybackRate now r).playbackRate = r := rfl

theorem isPlaying_ne_paused (d : Deck) (hplay : d.isPlaying = true) :
    ¬ d.state = DeckState.paused := by
  intro hps
  rw [Deck.isPlaying, hps] at hplay
  simp at hplay

theorem setPlaybackRate_shifter (d : Deck) (now r : ℚ) :
    (d.setPlaybackRate now r).shifter = d.shifter := by
  simp only [Deck.setPlaybackRate]
  split <;> rfl

theorem setPlaybackRate_buffer (d : Deck) (now r : ℚ) :
    (d.setPlaybackRate now r).audioBuffer = d.audioBuffer := by
  simp only [Deck.setPlaybackRate]
  split <;> rfl

theorem setPlaybackRate_pausedAt (d : Deck) (now r : ℚ) :
    (d.setPlaybackRate now r).pausedAt = d.pausedAt := by
  simp only [Deck.setPlaybackRate]
  split <;> rfl

theorem setPlaybackRate_anchor (d : Deck) (now r : ℚ)
    (hplay : d.isPlaying = true) (hstart : 0 < d.playStartAudioTime) :
    (d.setPlaybackRate now r).playStartAudioTime = now := by
  simp only [Deck.setPlaybackRate]
  rw [if_pos ⟨hplay, hstart⟩]

theorem setPlaybackRate_offset_fold (d : Deck) (now r : ℚ)
    (hplay : d.isPlaying = true) (hstart : 0 < d.playStartAudioTime) :
    (d.setPlaybackRate now r).accumulatedOffset
      = d.accumulatedOffset + (now - d.playStartAudioTime) * d.playbackRate := by
  simp only [Deck.setPlaybackRate]
  rw [if_pos ⟨hplay, hstart⟩]

/-- Within one rate segment, `getCurrentTime` is monotone in the clock
(for a non-negative rate). -/
theorem getCurrentTime_mono (d : Deck) (t₁ t₂ : ℚ)
    (hrate : 0 ≤ d.playbackRate) (h : t₁ ≤ t₂) :
    d.getCurrentTime t₁ ≤ d.getCurrentTime t₂ := by
  unfold Deck.getCurrentTime
  by_cases h0 : d.audioBuffer = none
  · rw [if_pos h0, if_pos h0]
  · rw [if_neg h0, if_neg h0]
    by_cases hp : d.isPlaying = false ∧ d.state = DeckState.paused
    · rw [if_pos hp, if_pos hp]
    · rw [if_neg hp, if_neg hp]
      by_cases hs : d.shifter = false
      · rw [if_pos hs, if_pos hs]
      · rw [if_neg hs, if_neg hs]
        refine min_le_min ?_ le_rfl
        have hmul := mul_le_mul_of_nonneg_right
          (sub_le_sub_right h d.playStartAudioTime) hrate
        linarith

/-- Continuity of the position reading across a `setPlaybackRate` call: at
the clock instant of the call, the reading after equals the reading
before, because elapsed time at the old rate is folded into
`accumulatedOffset` and the anchor is moved to `now`. -/
theorem getCurrentTime_setPlaybackRate (d : Deck) (now r : ℚ)
    (hplay : d.isPlaying = true) (hstart : 0 < d.playStartAudioTime) :
    (d.setPlaybackRate now r).getCurrentTime now = d.getCurrentTime now := by
  unfold Deck.getCurrentTime
  rw [setPlaybackRate_isPlaying, setPlaybackRate_state, setPlaybackRate_shifter,
    setPlaybackRate_buffer, setPlaybackRate_pausedAt,
    setPlaybackRate_anchor d now r hplay hstart,
    setPlaybackRate_offset_fold d now r hplay hstart, setPlaybackRate_rate]
  have harith :
      d.accumulatedOffset + (now - d.playStartAudioTime) * d.playbackRate
          + (now - now) * r
        = d.accumulatedOffset + (now - d.playStartAudioTime) * d.playbackRate := by
    ring
  rw [harith]

theorem chain_le_forall {a : ℚ} {l : List ℚ}
    (h : List.Chain (fun x y => x ≤ y) a l) : ∀ b ∈ l, a ≤ b := by
  induction l generalizing a with
  | nil => intro b hb; cases hb
  | cons x xs ih =>
    cases h with
    | cons hax hxs =>
      intro b hb
      rcases List.mem_cons.mp hb with h | h
      · exact h ▸ hax
      · exact le_trans hax (ih hxs b h)

theorem chain_le_prefix {a : ℚ} {l₁ l₂ : List ℚ}
    (h : List.Chain (fun x y => x ≤ y) a (l₁ ++ l₂)) :
    List.Chain (fun x y => x ≤ y) a l₁ := by
  induction l₁ generalizing a with
  | nil => exact List.Chain.nil
  | cons x xs ih =>
    cases h with
    | cons hax hxs => exact List.Chain.cons hax (ih hxs)

theorem applyRateEvents_append (d : Deck) (l₁ l₂ : List RateEvent) :
    applyRateEvents d (l₁ ++ l₂) = applyRateEvents (applyRateEvents d l₁) l₂ := by
  induction l₁ generalizing d with
  | nil => rfl
  | cons e es ih => simp [applyRateEvents, ih]

theorem applyRateEvents_isPlaying (d : Deck) (evs : List RateEvent) :
    (applyRateEvents d evs).isPlaying = d.isPlaying := by
  induction evs generalizing d with
  | nil => rfl
  | cons e es ih => rw [applyRateEvents, ih, setPlaybackRate_isPlaying]

theorem applyRateEvents_anchor_pos (d : Deck) (evs : List RateEvent)
    (hplay : d.isPlaying = true) (hstart : 0 < d.playStartAudioTime)
    (hchain : List.Chain (fun a b => a ≤ b) d.playStartAudioTime
      (evs.map RateEvent.time)) :
    0 < (applyRateEvents d evs).playStartAudioTime := by
  induction evs generalizing d with
  | nil => exact hstart
  | cons e es ih =>
    simp only [List.map_cons] at hchain
    cases hchain with
    | cons hae hes =>
    have hanchor := setPlaybackRate_anchor d e.time e.rate hplay hstart
    refine ih (d.setPlaybackRate e.time e.rate) ?_ ?_ ?_
    · rw [setPlaybackRate_isPlaying]; exact hplay
    · rw [hanchor]; exact lt_of_lt_of_le hstart hae
    · rw [hanchor]; exact hes

/-- At a clock time no later than every pending call, the trajectory is
just the current deck's reading (calls exactly at that instant do not
change the reading, by continuity). -/
theorem positionTrajectory_head (d : Deck) (evs : List RateEvent) (t : ℚ)
    (hplay : d.isPlaying = true) (hstart : 0 < d.playStartAudioTime)
    (hst : d.playStartAudioTime ≤ t) (hts : ∀ e ∈ evs, t ≤ e.time) :
    positionTrajectory d evs t = d.getCurrentTime t := by
  induction evs generalizing d with
  | nil => rfl
  | cons e es ih =>
    by_cases hlt : t < e.time
    · simp [positionTrajectory, hlt]
    · have hte : t = e.time :=
        le_antisymm (hts e (List.mem_cons_self e es)) (not_lt.mp hlt)
      have hanchor := setPlaybackRate_anchor d e.time e.rate hplay hstart
      have hplay' : (d.setPlaybackRate e.time e.rate).isPlaying = true := by
        rw [setPlaybackRate_isPlaying]; exact hplay
      have hstart' : 0 < (d.setPlaybackRate e.time e.rate).playStartAudioTime := by
        rw [hanchor, ← hte]; exact lt_of_lt_of_le hstart hst
      have hrec := ih (d.setPlaybackRate e.time e.rate) hplay' hstart'
        (by rw [hanchor, ← hte]) (fun f hf => hts f (List.mem_cons_of_mem e hf))
      rw [positionTrajectory, if_neg hlt, hrec, hte]
      exact getCurrentTime_setPlaybackRate d e.time e.rate hplay hstart

/-- Monotonicity of the whole position trajectory: with a playing deck,
positive anchor, non-negative rates, and calls at non-decreasing clock
times, later clock times never read an earlier position. -/
theorem positionTrajectory_mono (evs : List RateEvent) :
    ∀ d : Deck, d.isPlaying = true → 0 < d.playStartAudioTime →
      0 ≤ d.playbackRate → (∀ e ∈ evs, 0 ≤ e.rate) →
      List.Chain (fun a b => a ≤ b) d.playStartAudioTime (evs.map RateEvent.time) →
      ∀ t₁ t₂ : ℚ, t₁ ≤ t₂ →
        positionTrajectory d evs t₁ ≤ positionTrajectory d evs t₂ := by
  induction evs with
  | nil =>
    intro d _ _ hrate _ _ t₁ t₂ h
    exact getCurrentTime_mono d t₁ t₂ hrate h
  | cons e es ih =>
    intro d hplay hstart hrate hrates hchain t₁ t₂ h
    simp only [List.map_cons] at hchain
    cases hchain with
    | cons hae hes =>
    have hplay' : (d.setPlaybackRate e.time e.rate).isPlaying = true := by
      rw [setPlaybackRate_isPlaying]; exact hplay
    have hanchor : (d.setPlaybackRate e.time e.rate).playStartAudioTime = e.time :=
      setPlaybackRate_anchor d e.time e.rate hplay hstart
    have hstart' : 0 < (d.setPlaybackRate e.time e.rate).playStartAudioTime := by
      rw [hanchor]; exact lt_of_lt_of_le hstart hae
    have hrate' : 0 ≤ (d.setPlaybackRate e.time e.rate).playbackRate := by
      rw [setPlaybackRate_rate]; exact hrates e (List.mem_cons_self e es)
    have hrates' : ∀ f ∈ es, 0 ≤ f.rate :=
      fun f hf => hrates f (List.mem_cons_of_mem e hf)
    have hchain' : List.Chain (fun a b => a ≤ b)
        (d.setPlaybackRate e.time e.rate).playStartAudioTime (es.map RateEvent.time) := by
      rw [hanchor]; exact hes
    have hmono' := ih (d.setPlaybackRate e.time e.rate) hplay' hstart' hrate' hrates' hchain'
    by_cases h₁ : t₁ < e.time
    · by_cases h₂ : t₂ < e.time
      · simp only [positionTrajectory, if_pos h₁, if_pos h₂]
        exact getCurrentTime_mono d t₁ t₂ hrate h
      · simp only [positionTrajectory, if_pos h₁, if_neg h₂]
        have hts : ∀ f ∈ es, e.time ≤ f.time := by
          intro f hf
          exact chain_le_forall hes f.time (List.mem_map_of_mem RateEvent.time hf)
        have hhead : positionTrajectory (d.setPlaybackRate e.time e.rate) es e.time
            = (d.setPlaybackRate e.time e.rate).getCurrentTime e.time :=
          positionTrajectory_head (d.setPlaybackRate e.time e.rate) es e.time
            hplay' hstart' (le_of_eq hanchor) hts
        calc d.getCurrentTime t₁
            ≤ d.getCurrentTime e.time := getCurrentTime_mono d t₁ e.time hrate (le_of_lt h₁)
          _ = (d.setPlaybackRate e.time e.rate).getCurrentTime e.time :=
              (getCurrentTime_setPlaybackRate d e.time e.rate hplay hstart).symm
          _ = positionTrajectory (d.setPlaybackRate e.time e.rate) es e.time := hhead.symm
          _ ≤ positionTrajectory (d.setPlaybackRate e.time e.rate) es t₂ :=
              hmono' e.time t₂ (not_lt.mp h₂)
    · have h₂ : ¬ t₂ < e.time := fun hc => h₁ (lt_of_le_of_lt h hc)
      simp only [positionTrajectory, if_neg h₁, if_neg h₂]
      exact hmono' t₁ t₂ h

/-- C1 (amended): for every playing deck whose play anchor
`playStartAudioTime` is a positive clock time and whose playback rate is
non-negative, and any finite sequence of `setPlaybackRate` calls with
non-negative rates at non-decreasing clock times, `getCurrentTime()` is
monotonically non-decreasing in clock time, and reading the position
immediately before and immediately after each `setPlaybackRate` call (at
the same clock instant) yields the same value, because `setPlaybackRate`
first folds elapsed time at the old rate into `accumulatedOffset` and
re-anchors `playStartAudioTime` before applying the new rate. -/
theorem deck_position_monotone_continuous (d : Deck) (evs : List RateEvent)
    (hplay : d.isPlaying = true) (hstart : 0 < d.playStartAudioTime)
    (hrate : 0 ≤ d.playbackRate) (hrates : ∀ e ∈ evs, 0 ≤ e.rate)
    (hchain : List.Chain (fun a b => a ≤ b) d.playStartAudioTime
      (evs.map RateEvent.time)) :
    (∀ t₁ t₂ : ℚ, t₁ ≤ t₂ →
        positionTrajectory d evs t₁ ≤ positionTrajectory d evs t₂)
      ∧ ∀ pre e post, evs = pre ++ e :: post →
          (applyRateEvents d (pre ++ [e])).getCurrentTime e.time
            = (applyRateEvents d pre).getCurrentTime e.time := by
  constructor
  · exact positionTrajectory_mono evs d hplay hstart hrate hrates hchain
  · intro pre e post hsplit
    have happ : applyRateEvents d (pre ++ [e])
        = (applyRateEvents d pre).setPlaybackRate e.time e.rate := by
      rw [applyRateEvents_append]; rfl
    have hplay0 : (applyRateEvents d pre).isPlaying = true := by
      rw [applyRateEvents_isPlaying]; exact hplay
    have hchainpre : List.Chain (fun a b => a ≤ b) d.playStartAudioTime
        (pre.map RateEvent.time) := by
      subst hsplit
      rw [List.map_append] at hchain
      exact chain_le_prefix hchain
    have hstart0 : 0 < (applyRateEvents d pre).playStartAudioTime :=
      applyRateEvents_anchor_pos d pre hplay hstart hchainpre
    rw [happ]
    exact getCurrentTime_setPlaybackRate _ e.time e.rate hplay0 hstart0

/-- A decodable sample track: 100-second buffer, 4/4 at 120 BPM. -/
def sampleTrack : Track :=
  { id := "t1", name := "Track 1", audioBlobDecode := some 100,
    beatMap := { timeSignature := ⟨4, 4⟩, tempoEvents := [⟨0, 120, 0⟩],
                 ticksPerBeat := 480 },
    duration := 100 }

/-- A deck that loaded `sampleTrack`, had its rate set to 2 while idle, and
then called `play(0)` at clock time 0 — so its `playStartAudioTime`
anchor is 0, as happens when `play` runs right after the `AudioContext`
is created (its clock starts at 0). -/
def anchorZeroDeck : Deck :=
  (((({} : Deck).loadTrack sampleTrack).1).setPlaybackRate 0 2).play 0 0

/-- Evaluation of `getCurrentTime` on a playing deck with a processor and
a decoded buffer (used to compute concrete scenarios). -/
theorem getCurrentTime_eval (buf r v pa st acc now : ℚ) (tr : Option Track) :
    (Deck.mk (some buf) true tr DeckState.playing r v pa st acc).getCurrentTime now
      = min (acc + (now - st) * r) buf := by
  simp [Deck.getCurrentTime, Deck.isPlaying]

/-- C1 counterexample: the claim fails for a playing deck whose play
anchor is clock time 0.  The guard `playStartAudioTime > 0` in
`setPlaybackRate` skips the fold there, so a rate change from 2 to 1 at
clock 4 makes the reading jump from 8 down to 4: the trajectory is not
monotone (the reading at clock 3 is 6, above the reading 4 at clock 4)
and not continuous across the call — although the deck is playing, the
call times increase, and every rate is positive. -/
theorem deck_position_claim_counterexample :
    anchorZeroDeck.isPlaying = true
      ∧ (∀ e ∈ ([⟨4, 1⟩] : List RateEvent), 0 ≤ e.rate)
      ∧ 0 ≤ anchorZeroDeck.playbackRate
      ∧ positionTrajectory anchorZeroDeck [⟨4, 1⟩] 4
          < positionTrajectory anchorZeroDeck [⟨4, 1⟩] 3
      ∧ (applyRateEvents anchorZeroDeck ([] ++ [⟨4, 1⟩])).getCurrentTime 4
          ≠ (applyRateEvents anchorZeroDeck []).getCurrentTime 4 := by
  have hd : anchorZeroDeck
      = Deck.mk (some 100) true (some sampleTrack) DeckState.playing 2 1 0 0 0 := rfl
  have hd2 : anchorZeroDeck.setPlaybackRate 4 1
      = Deck.mk (some 100) true (some sampleTrack) DeckState.playing 1 1 0 0 0 := rfl
  have e3 : positionTrajectory anchorZeroDeck [⟨4, 1⟩] 3 = 6 := by
    norm_num [positionTrajectory, hd, getCurrentTime_eval, min_def]
  have e4 : positionTrajectory anchorZeroDeck [⟨4, 1⟩] 4 = 4 := by
    norm_num [positionTrajectory, hd2, getCurrentTime_eval, min_def]
  have e5 : (applyRateEvents anchorZeroDeck ([] ++ [⟨4, 1⟩])).getCurrentTime 4 = 4 := by
    norm_num [applyRateEvents, hd2, getCurrentTime_eval, min_def]
  have e6 : (applyRateEvents anchorZeroDeck []).getCurrentTime 4 = 8 := by
    norm_num [applyRateEvents, hd, getCurrentTime_eval, min_def]
  refine ⟨rfl, by simp, by rw [hd]; norm_num, ?_, ?_⟩
  · rw [e3, e4]; norm_num
  · rw [e5, e6]; norm_num

/-- A deck that loaded `sampleTrack` and called `play(0)` at clock time 1,
so its anchor is the positive clock time 1. -/
def anchorOneDeck : Deck :=
  ((({} : Deck).loadTrack sampleTrack).1).play 1 0

/-- Witness for C1 at a concrete playing deck (anchor 1, rate 1) and a
single rate change to rate 2 at clock 2: all hypotheses hold and the
position reading at clock 3 is at most the reading at clock 5. -/
theorem deck_position_monotone_continuous_witness :
    (anchorOneDeck.isPlaying = true ∧ 0 < anchorOneDeck.playStartAudioTime
        ∧ 0 ≤ anchorOneDeck.playbackRate)
      ∧ positionTrajectory anchorOneDeck [⟨2, 2⟩] 3
          ≤ positionTrajectory anchorOneDeck [⟨2, 2⟩] 5 :=
  ⟨⟨rfl, by show (0 : ℚ) < 1; norm_num, by show (0 : ℚ) ≤ 1; norm_num⟩,
    (deck_position_monotone_continuous anchorOneDeck [⟨2, 2⟩] rfl
        (by show (0 : ℚ) < 1; norm_num) (by show (0 : ℚ) ≤ 1; norm_num)
        (by simp)
        (List.Chain.cons (by show (1 : ℚ) ≤ 2; norm_num) List.Chain.nil)).1
      3 5 (by norm_num)⟩

/-! ### Equal-power crossfade (`DualDeckEngine.schedulerTick`, mixing branch)

The mixing branch runs when `phase === 'mixing' && mixDuration > 0`; it
computes `progress = Math.min(elapsed / mixDuration, 1)` from
`elapsed = now − mixStartTime` and sets the outgoing (active) deck's
volume to `cos(progress·π/2)` and the incoming (inactive) deck's volume
to `sin(progress·π/2)`.  This is transcendental arithmetic, modelled over
the reals. -/

/-- `progress` of the crossfade at clock `now`. -/
noncomputable def mixTickProgress (mixStartTime mixDuration now : ℝ) : ℝ :=
  min ((now - mixStartTime) / mixDuration) 1

/-- Volume the mixing branch sets on the outgoing (active) deck. -/
noncomputable def mixTickOutVolume (mixStartTime mixDuration now : ℝ) : ℝ :=
  Real.cos (mixTickProgress mixStartTime mixDuration now * Real.pi / 2)

/-- Volume the mixing branch sets on the incoming (inactive) deck. -/
noncomputable def mixTickInVolume (mixStartTime mixDuration now : ℝ) : ℝ :=
  Real.sin (mixTickProgress mixStartTime mixDuration now * Real.pi / 2)

/-- C2: during mixing (`mixDuration > 0`, and the monotone clock is at or
past `mixStartTime`), the progress equals the claimed clamp of
`(now − mixStartTime)/mixDuration` to `[0, 1]`, the outgoing volume is
`cos(p·π/2)` and the incoming volume `sin(p·π/2)`; hence at `p = 0` the
volumes are 1 and 0, at `p = 1` they are 0 and 1, and at every progress
value the sum of their squares is exactly 1. -/
theorem mix_crossfade_equal_power (mixStartTime mixDuration now : ℝ)
    (hdur : 0 < mixDuration) (hnow : mixStartTime ≤ now) :
    mixTickProgress mixStartTime mixDuration now
        = max 0 (min ((now - mixStartTime) / mixDuration) 1)
      ∧ mixTickOutVolume mixStartTime mixDuration now
          = Real.cos (mixTickProgress mixStartTime mixDuration now * Real.pi / 2)
      ∧ mixTickInVolume mixStartTime mixDuration now
          = Real.sin (mixTickProgress mixStartTime mixDuration now * Real.pi / 2)
      ∧ (mixTickProgress mixStartTime mixDuration now = 0 →
          mixTickOutVolume mixStartTime mixDuration now = 1
            ∧ mixTickInVolume mixStartTime mixDuration now = 0)
      ∧ (mixTickProgress mixStartTime mixDuration now = 1 →
          mixTickOutVolume mixStartTime mixDuration now = 0
            ∧ mixTickInVolume mixStartTime mixDuration now = 1)
      ∧ mixTickOutVolume mixStartTime mixDuration now ^ 2
          + mixTickInVolume mixStartTime mixDuration now ^ 2 = 1 := by
  have hclamp : mixTickProgress mixStartTime mixDuration now
      = max 0 (min ((now - mixStartTime) / mixDuration) 1) := by
    have h0 : 0 ≤ (now - mixStartTime) / mixDuration :=
      div_nonneg (by linarith) (le_of_lt hdur)
    have h1 : (0 : ℝ) ≤ min ((now - mixStartTime) / mixDuration) 1 :=
      le_min h0 (by norm_num)
    rw [mixTickProgress, max_eq_right h1]
  refine ⟨hclamp, rfl, rfl, ?_, ?_, ?_⟩
  · intro hp
    constructor
    · rw [mixTickOutVolume, hp]
      norm_num
    · rw [mixTickInVolume, hp]
      norm_num
  · intro hp
    constructor
    · rw [mixTickOutVolume, hp]
      rw [one_mul, Real.cos_pi_div_two]
    · rw [mixTickInVolume, hp]
      rw [one_mul, Real.sin_pi_div_two]
  · rw [mixTickOutVolume, mixTickInVolume]
    exact Real.cos_sq_add_sin_sq _

/-- Witness for C2 at the concrete tick `mixStartTime = 0`,
`mixDuration = 1`, `now = 0`: progress is 0, the outgoing volume is 1,
the incoming volume is 0, and the squares sum to 1. -/
theorem mix_crossfade_equal_power_witness :
    (mixTickOutVolume 0 1 0 = 1 ∧ mixTickInVolume 0 1 0 = 0)
      ∧ mixTickOutVolume 0 1 0 ^ 2 + mixTickInVolume 0 1 0 ^ 2 = 1 := by
  have hp : mixTickProgress 0 1 0 = 0 := by
    rw [mixTickProgress]
    norm_num
  exact ⟨(mix_crossfade_equal_power 0 1 0 (by norm_num) (by norm_num)).2.2.2.1 hp,
    (mix_crossfade_equal_power 0 1 0 (by norm_num) (by norm_num)).2.2.2.2.2⟩

/-! ### Mix-time scheduling (`DualDeckEngine.schedulerTick`, queued branch) -/

/-- The queued-branch computation of `pendingMixTime`, run when
`phase === 'queued'`, the active deck is playing, and no mix time is
scheduled yet.  Returns the absolute audio-clock deadline, or `none` when
the defensive guard rejects a non-positive duration or BPM (the engine
then skips this tick and retries).  The JS `rate || 1` falsy-coalescing
maps to replacing a zero rate by 1; the `Number.isFinite` checks cannot
fail over ℚ and are subsumed by the sign checks. -/
def scheduleQueuedMixTime (activeDeck : Deck) (now : ℚ)
    (forceImmediateMix : Bool) : Option ℚ :=
  let currentTime := activeDeck.getCurrentTime now
  let rate := if activeDeck.getPlaybackRate = 0 then 1 else activeDeck.getPlaybackRate
  if forceImmediateMix then
    match activeDeck.getBeatMap with
    | some beatMap =>
      let nextDownbeat :=
        getNextDownbeat beatMap currentTime (some activeDeck.getEffectiveBpm)
      let bufferDelta := nextDownbeat.timeSeconds - currentTime
      some (now + bufferDelta / rate)
    | none => some (now + 1/10)
  else
    let duration := activeDeck.getDuration
    let nativeBpm := activeDeck.getNativeBpm
    let beatsPerBar : ℚ :=
      match activeDeck.getBeatMap with
      | some beatMap => beatMap.timeSignature.numerator
      | none => 4
    let barDurationBuffer := beatsPerBar * (60 / nativeBpm)
    let twoBars := 2 * barDurationBuffer
    if duration ≤ 0 ∨ nativeBpm ≤ 0 then none
    else
      let mixStartTrackTime := max 0 (duration - twoBars)
      if mixStartTrackTime - 1/20 ≤ currentTime then
        match activeDeck.getBeatMap with
        | some beatMap =>
          let nextDownbeat :=
            getNextDownbeat beatMap currentTime (some activeDeck.getEffectiveBpm)
          let bufferDelta := nextDownbeat.timeSeconds - currentTime
          some (now + bufferDelta / rate)
        | none => some (now + 1/10)
      else
        let bufferDelta := mixStartTrackTime - currentTime
        some (now + bufferDelta / rate)

/-- Reduction of the normal (non-immediate) scheduling branch for a deck
with a loaded track and valid duration/BPM. -/
theorem scheduleQueuedMixTime_normal (d : Deck) (now : ℚ) (tr : Track)
    (htrack : d.track = some tr)
    (hdur : 0 < d.getDuration) (hbpm : 0 < d.getNativeBpm) :
    scheduleQueuedMixTime d now false
      = (if max 0 (d.getDuration
              - 2 * ((tr.beatMap.timeSignature.numerator : ℚ) * (60 / d.getNativeBpm)))
            - 1/20 ≤ d.getCurrentTime now
         then some (now
            + ((getNextDownbeat tr.beatMap (d.getCurrentTime now)
                  (some d.getEffectiveBpm)).timeSeconds - d.getCurrentTime now)
              / (if d.getPlaybackRate = 0 then 1 else d.getPlaybackRate))
         else some (now
            + (max 0 (d.getDuration
                  - 2 * ((tr.beatMap.timeSignature.numerator : ℚ) * (60 / d.getNativeBpm)))
                - d.getCurrentTime now)
              / (if d.getPlaybackRate = 0 then 1 else d.getPlaybackRate))) := by
  have hmap : d.getBeatMap = some tr.beatMap := by
    simp [Deck.getBeatMap, htrack]
  have hguard : ¬ (d.getDuration ≤ 0 ∨ d.getNativeBpm ≤ 0) := by
    push_neg
    exact ⟨hdur, hbpm⟩
  simp only [scheduleQueuedMixTime, hmap, Bool.false_eq_true, if_false, hguard,
    ite_false, mul_comm]

/-- C3: in normal (non-immediate) scheduling with the active deck playing
a loaded track of positive duration and positive native BPM, writing
`bar` for one bar (`timeSignature.numerator × (60 / nativeBpm)` seconds),
`ct` for the current position (non-negative) and `rate` for the playback
rate (with the `|| 1` fallback): while `ct` has not yet reached
`duration − 2·bar − 0.05`, the mix is scheduled at track-time
`duration − 2·bar`, converted to the clock deadline
`now + (mixStartTrackTime − ct)/rate`; once `ct` is at or past that
point, it is scheduled at the next downbeat instead.  In particular a
60-second track at native BPM 120 in 4/4 gives `duration − 2·bar = 56`. -/
theorem normal_mix_schedule_two_bars (d : Deck) (now ct bar rate : ℚ) (tr : Track)
    (htrack : d.track = some tr) (_hplay : d.isPlaying = true)
    (hdur : 0 < d.getDuration) (hbpm : 0 < d.getNativeBpm)
    (hct : ct = d.getCurrentTime now) (hct0 : 0 ≤ ct)
    (hbar : bar = (tr.beatMap.timeSignature.numerator : ℚ) * (60 / d.getNativeBpm))
    (hrate : rate = if d.getPlaybackRate = 0 then 1 else d.getPlaybackRate) :
    (ct < d.getDuration - 2 * bar - 1/20 →
        scheduleQueuedMixTime d now false
          = some (now + ((d.getDuration - 2 * bar) - ct) / rate))
      ∧ (d.getDuration - 2 * bar - 1/20 ≤ ct →
        scheduleQueuedMixTime d now false
          = some (now
              + ((getNextDownbeat tr.beatMap ct (some d.getEffectiveBpm)).timeSeconds
                  - ct) / rate))
      ∧ (d.getDuration = 60 → d.getNativeBpm = 120 →
          (tr.beatMap.timeSignature.numerator : ℚ) = 4 →
          d.getDuration - 2 * bar = 56) := by
  subst hct hbar hrate
  rw [scheduleQueuedMixTime_normal d now tr htrack hdur hbpm]
  refine ⟨?_, ?_, ?_⟩
  · intro hlt
    have h2 : 0 ≤ d.getDuration
        - 2 * ((tr.beatMap.timeSignature.numerator : ℚ) * (60 / d.getNativeBpm)) := by
      linarith
    rw [max_eq_right h2, if_neg (by linarith)]
  · intro hge
    have hcond : max 0 (d.getDuration
        - 2 * ((tr.beatMap.timeSignature.numerator : ℚ) * (60 / d.getNativeBpm)))
          - 1/20 ≤ d.getCurrentTime now := by
      have hmax : max 0 (d.getDuration
          - 2 * ((tr.beatMap.timeSignature.numerator : ℚ) * (60 / d.getNativeBpm)))
            ≤ d.getCurrentTime now + 1/20 :=
        max_le (by linarith) (by linarith)
      linarith
    rw [if_pos hcond]
  · intro h60 h120 h4
    rw [h60, h120, h4]
    norm_num

/-- Track used by the C3 witness: 60-second buffer, 4/4 at native 120 BPM. -/
def track60 : Track :=
  { id := "t60", name := "Track 60", audioBlobDecode := some 60,
    beatMap := { timeSignature := ⟨4, 4⟩, tempoEvents := [⟨0, 120, 0⟩],
                 ticksPerBeat := 480 },
    duration := 60 }

/-- Deck used by the C3 witness: playing `track60` at rate 1 with anchor 1,
so at clock 11 its position is 10. -/
def mixWitnessDeck : Deck :=
  Deck.mk (some 60) true (some track60) DeckState.playing 1 1 0 1 0

/-- Witness for C3: for the 60-second 120-BPM 4/4 track at position 10
(clock 11, rate 1), one bar is 2 s and the mix is scheduled at track-time
`60 − 2·2 = 56`, i.e. at clock `11 + (56 − 10)/1 = 57`. -/
theorem normal_mix_schedule_two_bars_witness :
    scheduleQueuedMixTime mixWitnessDeck 11 false = some 57 := by
  have hct : (10 : ℚ) = mixWitnessDeck.getCurrentTime 11 := by
    show (10 : ℚ)
      = (Deck.mk (some 60) true (some track60) DeckState.playing 1 1 0 1 0).getCurrentTime 11
    rw [getCurrentTime_eval]
    norm_num [min_def]
  have h := normal_mix_schedule_two_bars mixWitnessDeck 11 10 2 1 track60
    rfl rfl (by show (0 : ℚ) < 60; norm_num) (by show (0 : ℚ) < 120; norm_num)
    hct (by norm_num)
    (by show (2 : ℚ) = ((4 : ℕ) : ℚ) * (60 / 120); norm_num)
    (by show (1 : ℚ) = if (1 : ℚ) = 0 then 1 else (1 : ℚ); norm_num)
  have hres := h.1 (by show (10 : ℚ) < 60 - 2 * 2 - 1/20; norm_num)
  rw [hres]
  norm_num [show mixWitnessDeck.getDuration = 60 from rfl]

/-! ### PendingQueue (`src/lib/queueManager.ts`) -/

/-- Transition mode of the engine. -/
inductive TransitionMode where
  | mix | cut
  deriving DecidableEq, Repr

/-- Settings snapshot captured when a track is queued. -/
structure QueueItemSettings where
  transitionMode : TransitionMode
  targetBpm : ℚ
  deriving DecidableEq, Repr

/-- A track in the playback queue with its transition settings.
`queuedAt` is the `Date.now()` wall-clock timestamp. -/
structure QueueItem where
  id : String
  track : Track
  settings : QueueItemSettings
  queuedAt : ℤ
  deriving DecidableEq, Repr

/-- Settings snapshot used when creating a new queue item. -/
structure QueueItemConfig where
  transitionMode : TransitionMode
  targetBpm : ℚ
  deriving DecidableEq, Repr

/-- Insertion position for `add`: the source's string literals
`'end' | 'next'` (`end` is a keyword in Lean). -/
inductive QueuePosition where
  | endPos | nextPos
  deriving DecidableEq, Repr

/-- Queue manager state: the pending list, the single active ("being
prepared") slot, and the id counter. -/
structure QueueManager where
  queue : List QueueItem := []
  activeItem : Option QueueItem := none
  idCounter : ℕ := 0
  deriving DecidableEq, Repr

/-- `createItem(track, config)`: increments the id counter and builds a
`QueueItem` without adding it to the queue.  `dateNow` is the external
`Date.now()` reading. -/
def QueueManager.createItem (qm : QueueManager) (track : Track)
    (config : QueueItemConfig) (dateNow : ℤ) : QueueManager × QueueItem :=
  let n := qm.idCounter + 1
  ({ qm with idCounter := n },
   { id := "q-" ++ toString n, track := track,
     settings := { transitionMode := config.transitionMode,
                   targetBpm := config.targetBpm },
     queuedAt := dateNow })

/-- `add(track, position, config)`: creates an item with the next id and
appends (`'end'`) or prepends (`'next'`) it. -/
def QueueManager.add (qm : QueueManager) (track : Track) (position : QueuePosition)
    (config : QueueItemConfig) (dateNow : ℤ) : QueueManager × QueueItem :=
  let n := qm.idCounter + 1
  let item : QueueItem :=
    { id := "q-" ++ toString n, track := track,
      settings := { transitionMode := config.transitionMode,
                    targetBpm := config.targetBpm },
      queuedAt := dateNow }
  match position with
  | .nextPos => ({ qm with queue := item :: qm.queue, idCounter := n }, item)
  | .endPos => ({ qm with queue := qm.queue ++ [item], idCounter := n }, item)

/-- `shift()`: FIFO pop of the front of the pending list. -/
def QueueManager.shift (qm : QueueManager) : QueueManager × Option QueueItem :=
  match qm.queue with
  | [] => (qm, none)
  | x :: xs => ({ qm with queue := xs }, some x)

/-- `unshiftItem(item)`: push an item back to the front of the queue. -/
def QueueManager.unshiftItem (qm : QueueManager) (item : QueueItem) : QueueManager :=
  { qm with queue := item :: qm.queue }

/-- `getActiveItem()` accessor. -/
def QueueManager.getActiveItem (qm : QueueManager) : Option QueueItem :=
  qm.activeItem

/-- `setActiveItem(item)` mutator. -/
def QueueManager.setActiveItem (qm : QueueManager) (item : Option QueueItem) :
    QueueManager :=
  { qm with activeItem := item }

/-- `clearActiveItem()` mutator. -/
def QueueManager.clearActiveItem (qm : QueueManager) : QueueManager :=
  { qm with activeItem := none }

/-- `get length()`: number of pending items (excluding the active slot). -/
def QueueManager.length (qm : QueueManager) : ℕ :=
  qm.queue.length

/-- `get isEmpty()`: both the list and the active slot are empty. -/
def QueueManager.isEmpty (qm : QueueManager) : Bool :=
  (qm.queue.length = 0) && (qm.activeItem = none)

/-- `getNextTrack()`: the active item's track, else the front track. -/
def QueueManager.getNextTrack (qm : QueueManager) : Option Track :=
  match qm.activeItem with
  | some item => some item.track
  | none => qm.queue.head?.map QueueItem.track

/-- `clear()`: empties both the list and the active slot. -/
def QueueManager.clear (qm : QueueManager) : QueueManager :=
  { qm with queue := [], activeItem := none }

/-- C7: starting from an empty queue, adding T1 at `'end'`, T2 at `'end'`
and then T3 at `'next'` yields the FIFO dequeue order T3, T1, T2 (and an
empty queue afterwards): `'end'` appends to the back, `'next'` prepends
to the front, and `shift` removes from the front. -/
theorem queue_fifo_order (t1 t2 t3 : Track) (cfg : QueueItemConfig)
    (n1 n2 n3 : ℤ) :
    Option.map QueueItem.track
        (((({} : QueueManager).add t1 QueuePosition.endPos cfg n1).1.add t2
            QueuePosition.endPos cfg n2).1.add t3 QueuePosition.nextPos cfg
            n3).1.shift.2 = some t3
      ∧ Option.map QueueItem.track
          (((({} : QueueManager).add t1 QueuePosition.endPos cfg n1).1.add t2
              QueuePosition.endPos cfg n2).1.add t3 QueuePosition.nextPos cfg
              n3).1.shift.1.shift.2 = some t1
      ∧ Option.map QueueItem.track
          (((({} : QueueManager).add t1 QueuePosition.endPos cfg n1).1.add t2
              QueuePosition.endPos cfg n2).1.add t3 QueuePosition.nextPos cfg
              n3).1.shift.1.shift.1.shift.2 = some t2
      ∧ (((({} : QueueManager).add t1 QueuePosition.endPos cfg n1).1.add t2
          QueuePosition.endPos cfg n2).1.add t3 QueuePosition.nextPos cfg
          n3).1.shift.1.shift.1.shift.1.queue = [] := by
  simp [QueueManager.add, QueueManager.shift]

/-! ### Cut transition (`DualDeckEngine.executeCut`) -/

/-- Observable effects of `executeCut` on the two decks.
`outgoingFadeDuration` is the `rampTime` the engine passes to the
outgoing deck's `setVolume(0, beatDuration)` (the ramp itself runs on the
external gain node); after it, the engine schedules the post-fade cleanup
(`cutCleanup`), swaps the active deck, sets the phase to `playing`,
clears the active queue item and advances the queue. -/
structure CutEffects where
  outgoingFadeDuration : ℚ
  incomingRate : ℚ
  newTargetBpm : ℚ
  outgoingDeck : Deck
  incomingDeck : Deck
  deriving DecidableEq, Repr

/-- `executeCut(activeDeck, inactiveDeck)` under the engine's `fixTempo`
config and `targetBpm`: a 1-beat fade on the outgoing deck at its
effective BPM (falsy `|| 120` fallback); the incoming deck's rate is
`targetBpm / incomingNativeBpm` when Fix Tempo is ON, else native rate 1
(and `targetBpm` becomes the incoming native BPM); the incoming deck
starts at volume 0, plays from 0, ramps to 1 over 20 ms and is set
`playing`. -/
def executeCut (fixTempo : Bool) (targetBpm : ℚ) (activeDeck inactiveDeck : Deck)
    (now : ℚ) : CutEffects :=
  let incomingNativeBpm := inactiveDeck.getNativeBpm
  let bpm := if activeDeck.getEffectiveBpm = 0 then 120 else activeDeck.getEffectiveBpm
  let beatDuration := 60 / bpm
  let active1 := activeDeck.setVolume 0
  let rate := if fixTempo then targetBpm / incomingNativeBpm else 1
  let newTarget := if fixTempo then targetBpm else incomingNativeBpm
  let incoming1 :=
    ((((inactiveDeck.setPlaybackRate now rate).setVolume 0).play now 0).setVolume
        1).setState DeckState.playing
  { outgoingFadeDuration := beatDuration, incomingRate := rate,
    newTargetBpm := newTarget, outgoingDeck := active1, incomingDeck := incoming1 }

/-- The post-fade cleanup callback scheduled (fire-and-forget) by
`executeCut`'s `setTimeout`: stop the outgoing deck and restore its
volume to 1. -/
def cutCleanup (d : Deck) : Deck :=
  (d.stop).setVolume 1

/-- Track at native 128 BPM used for the C5 counterexample. -/
def cutTrack128 : Track :=
  { id := "t128", name := "T128", audioBlobDecode := some 100,
    beatMap := { timeSignature := ⟨4, 4⟩, tempoEvents := [⟨0, 128, 0⟩],
                 ticksPerBeat := 480 },
    duration := 100 }

/-- Track at native 100 BPM used for the C5 counterexample. -/
def cutTrack100 : Track :=
  { id := "t100", name := "T100", audioBlobDecode := some 100,
    beatMap := { timeSignature := ⟨4, 4⟩, tempoEvents := [⟨0, 100, 0⟩],
                 ticksPerBeat := 480 },
    duration := 100 }

/-- Outgoing deck for C5: playing `cutTrack128` at rate 1, so its
effective BPM is 128. -/
def cutOutDeck : Deck :=
  Deck.mk (some 100) true (some cutTrack128) DeckState.playing 1 1 0 1 0

/-- Incoming deck for C5: `cutTrack100` loaded, idle. -/
def cutInDeck : Deck :=
  Deck.mk (some 100) false (some cutTrack100) DeckState.idle 1 1 0 0 0

/-- C5 counterexample: in the default configuration the fixed-tempo lock
is OFF (`fixTempo: false`), and `executeCut` then plays the incoming deck
at native rate 1, not at `B / incomingNativeBpm = 128/100`; with the lock
ON it uses `targetBpm / incomingNativeBpm` (here `120/100`), still not
`128/100`.  The fade-duration half of the claim does hold: `60/128`. -/
theorem executeCut_claim_counterexample :
    cutOutDeck.getEffectiveBpm = 128
      ∧ cutInDeck.getNativeBpm = 100
      ∧ (executeCut false 120 cutOutDeck cutInDeck 5).outgoingFadeDuration = 60 / 128
      ∧ (executeCut false 120 cutOutDeck cutInDeck 5).incomingRate = 1
      ∧ (executeCut false 120 cutOutDeck cutInDeck 5).incomingRate ≠ 128 / 100
      ∧ (executeCut true 120 cutOutDeck cutInDeck 5).incomingRate = 120 / 100
      ∧ (executeCut true 120 cutOutDeck cutInDeck 5).incomingRate ≠ 128 / 100 := by
  have hB : cutOutDeck.getEffectiveBpm = 128 := by
    norm_num [Deck.getEffectiveBpm, Deck.getNativeBpm, nativeBpmOfBeatMap,
      getNativeBpm, cutOutDeck, cutTrack128]
  have hN : cutInDeck.getNativeBpm = 100 := by
    norm_num [Deck.getNativeBpm, nativeBpmOfBeatMap, getNativeBpm, cutInDeck,
      cutTrack100]
  refine ⟨hB, hN, ?_, ?_, ?_, ?_, ?_⟩ <;>
    · simp only [executeCut, hB, hN]
      norm_num

/-- C5 (amended): for any cut with a non-zero outgoing effective BPM `B`,
the outgoing channel's fade duration is `60/B` seconds, and the incoming
channel's playback rate is native speed 1 when the fixed-tempo lock is
disabled (the default), or `targetBpm / incomingNativeBpm` when the lock
is enabled (in which case the engine's target BPM also becomes the
incoming native BPM when disabled, and stays `targetBpm` when enabled). -/
theorem executeCut_fade_and_rate (fixTempo : Bool) (targetBpm : ℚ)
    (activeDeck inactiveDeck : Deck) (now : ℚ)
    (hB : activeDeck.getEffectiveBpm ≠ 0) :
    (executeCut fixTempo targetBpm activeDeck inactiveDeck now).outgoingFadeDuration
        = 60 / activeDeck.getEffectiveBpm
      ∧ (fixTempo = false →
          (executeCut fixTempo targetBpm activeDeck inactiveDeck now).incomingRate = 1
            ∧ (executeCut fixTempo targetBpm activeDeck inactiveDeck now).newTargetBpm
                = inactiveDeck.getNativeBpm)
      ∧ (fixTempo = true →
          (executeCut fixTempo targetBpm activeDeck inactiveDeck now).incomingRate
              = targetBpm / inactiveDeck.getNativeBpm
            ∧ (executeCut fixTempo targetBpm activeDeck inactiveDeck now).newTargetBpm
                = targetBpm) := by
  simp only [executeCut, if_neg hB]
  cases fixTempo <;> simp

/-- Witness for C5 at the concrete decks of the counterexample, in the
default configuration (lock off): fade `60/128` and incoming rate 1. -/
theorem executeCut_fade_and_rate_witness :
    cutOutDeck.getEffectiveBpm ≠ 0
      ∧ (executeCut false 120 cutOutDeck cutInDeck 5).outgoingFadeDuration
          = 60 / cutOutDeck.getEffectiveBpm
      ∧ (executeCut false 120 cutOutDeck cutInDeck 5).incomingRate = 1 := by
  have hB : cutOutDeck.getEffectiveBpm = 128 := by
    norm_num [Deck.getEffectiveBpm, Deck.getNativeBpm, nativeBpmOfBeatMap,
      getNativeBpm, cutOutDeck, cutTrack128]
  have hne : cutOutDeck.getEffectiveBpm ≠ 0 := by rw [hB]; norm_num
  exact ⟨hne, (executeCut_fade_and_rate false 120 cutOutDeck cutInDeck 5 hne).1,
    ((executeCut_fade_and_rate false 120 cutOutDeck cutInDeck 5 hne).2.1 rfl).1⟩

/-- C9: `Deck.stop()` is idempotent — `stop` after `stop` is exactly the
same state, the post-fade `cutCleanup` callback is likewise idempotent,
and on a channel that is already stopped (idle, no processor) `stop` is
an observable no-op: lifecycle state, processor, track, buffer, volume,
rate and position reading are all unchanged.  Hence the fire-and-forget
cleanup scheduled by `executeCut` is safe to run even after the channel
was already stopped by a phase change. -/
theorem stop_idempotent_safe (d : Deck) (now : ℚ) :
    Deck.stop (Deck.stop d) = Deck.stop d
      ∧ cutCleanup (cutCleanup d) = cutCleanup d
      ∧ (d.state = DeckState.idle → d.shifter = false →
          ((Deck.stop d).state = d.state ∧ (Deck.stop d).shifter = d.shifter
            ∧ (Deck.stop d).track = d.track
            ∧ (Deck.stop d).audioBuffer = d.audioBuffer
            ∧ (Deck.stop d).volume = d.volume
            ∧ (Deck.stop d).playbackRate = d.playbackRate
            ∧ (Deck.stop d).getCurrentTime now = d.getCurrentTime now)) := by
  refine ⟨rfl, rfl, ?_⟩
  intro hidle hsh
  refine ⟨by simp [Deck.stop, hidle], by simp [Deck.stop, hsh], rfl, rfl, rfl, rfl, ?_⟩
  simp [Deck.getCurrentTime, Deck.stop, Deck.isPlaying, hidle, hsh]

/-- Witness for C9 at the initial (stopped) deck: state idle, no
processor, and `stop` changes nothing observable. -/
theorem stop_idempotent_safe_witness :
    (({} : Deck).state = DeckState.idle ∧ ({} : Deck).shifter = false)
      ∧ Deck.stop (Deck.stop ({} : Deck)) = Deck.stop ({} : Deck)
      ∧ (Deck.stop ({} : Deck)).state = ({} : Deck).state :=
  ⟨⟨rfl, rfl⟩, (stop_idempotent_safe ({} : Deck) 0).1,
    ((stop_idempotent_safe ({} : Deck) 0).2.2 rfl rfl).1⟩

/-! ### Scheduler auto-advance (`DualDeckEngine.schedulerTick`, top branch) -/

/-- Lifecycle phase of the engine. -/
inductive TransitionPhase where
  | idle | queued | mixing | playing
  deriving DecidableEq, Repr

/-- The auto-advance branch of the scheduler tick: when the phase is
`playing`, the pending queue and active slot are empty, and no
preparation is in flight, it invokes the registered `onTrackEnded`
callback unless the one-shot `autoAdvanceRequested` flag is already set,
and goes `idle` if the active deck reports `isFinished()`.  Returns the
new phase, the new flag, and whether the callback fired this tick. -/
def autoAdvanceStep (phase : TransitionPhase) (qm : QueueManager)
    (preparingQueueItem autoAdvanceRequested hasOnTrackEnded : Bool)
    (activeDeck : Option Deck) (now : ℚ) :
    TransitionPhase × Bool × Bool :=
  if phase = TransitionPhase.playing ∧ qm.length = 0 ∧ qm.getActiveItem = none
      ∧ preparingQueueItem = false then
    let fired := !autoAdvanceRequested && hasOnTrackEnded
    let autoAdvanceRequested1 := if fired then true else autoAdvanceRequested
    let phase1 :=
      if (activeDeck.map (fun d => d.isFinished now)).getD false = true then
        TransitionPhase.idle
      else phase
    (phase1, autoAdvanceRequested1, fired)
  else (phase, autoAdvanceRequested, false)

/-- C8 (amended): the callback fires exactly when the phase is `playing`,
the queue and active slot are empty, nothing is being prepared, the
one-shot flag is unset and a callback is registered — regardless of
`isFinished()`; the phase becomes `idle` exactly when those emptiness
conditions hold and the active deck additionally reports finished (or it
already was `idle`); after a fire the flag is set, and a tick that fires
starting from the resulting state proves the first did not fire (at most
once until the flag is reset by a new active item). -/
theorem auto_advance_once (phase : TransitionPhase) (qm : QueueManager)
    (preparing autoAdv hasCb : Bool) (deck : Option Deck) (now : ℚ) :
    ((autoAdvanceStep phase qm preparing autoAdv hasCb deck now).2.2 = true
        ↔ (phase = TransitionPhase.playing ∧ qm.length = 0 ∧ qm.getActiveItem = none
            ∧ preparing = false ∧ autoAdv = false ∧ hasCb = true))
      ∧ ((autoAdvanceStep phase qm preparing autoAdv hasCb deck now).1
            = TransitionPhase.idle
        ↔ ((phase = TransitionPhase.playing ∧ qm.length = 0 ∧ qm.getActiveItem = none
              ∧ preparing = false)
            ∧ (deck.map (fun d => d.isFinished now)).getD false = true)
          ∨ phase = TransitionPhase.idle)
      ∧ ((autoAdvanceStep phase qm preparing autoAdv hasCb deck now).2.2 = true →
          (autoAdvanceStep phase qm preparing autoAdv hasCb deck now).2.1 = true)
      ∧ ((autoAdvanceStep (autoAdvanceStep phase qm preparing autoAdv hasCb deck now).1
            qm preparing (autoAdvanceStep phase qm preparing autoAdv hasCb deck now).2.1
            hasCb deck now).2.2 = true →
          (autoAdvanceStep phase qm preparing autoAdv hasCb deck now).2.2 = false) := by
  by_cases hg : phase = TransitionPhase.playing ∧ qm.length = 0
      ∧ qm.getActiveItem = none ∧ preparing = false
  · rw [autoAdvanceStep, if_pos hg]
    by_cases hf : (deck.map (fun d => d.isFinished now)).getD false = true
    · cases autoAdv <;> cases hasCb <;>
        simp_all [autoAdvanceStep, hg.1, hg.2.1, hg.2.2.1, hg.2.2.2]
    · cases autoAdv <;> cases hasCb <;>
        simp_all [autoAdvanceStep, hg.1, hg.2.1, hg.2.2.1, hg.2.2.2]
  · rw [autoAdvanceStep, if_neg hg]
    refine ⟨⟨fun hc => absurd hc (by simp),
        fun hc => absurd ⟨hc.1, hc.2.1, hc.2.2.1, hc.2.2.2.1⟩ hg⟩,
      ⟨fun hidle => Or.inr hidle, fun hdis => ?_⟩, by simp, ?_⟩
    · rcases hdis with ⟨hc, _⟩ | hidle
      · exact absurd hc hg
      · exact hidle
    · rw [autoAdvanceStep, if_neg hg]
      simp

/-- C8 counterexample: with the phase `playing`, an empty queue and active
slot, no preparation in flight, a fresh one-shot flag and a registered
callback, the tick invokes the callback even though the active deck is
nowhere near finished (position 10 of 60 seconds) — and the phase stays
`playing`.  The claim's "only when ... the active channel reports
isFinished()" is therefore false: `isFinished()` only gates the
phase→idle transition, not the callback. -/
theorem auto_advance_claim_counterexample :
    (autoAdvanceStep TransitionPhase.playing {} false false true
        (some mixWitnessDeck) 11).2.2 = true
      ∧ mixWitnessDeck.isFinished 11 = false
      ∧ (autoAdvanceStep TransitionPhase.playing {} false false true
          (some mixWitnessDeck) 11).1 = TransitionPhase.playing := by
  have hct : mixWitnessDeck.getCurrentTime 11 = 10 := by
    show (Deck.mk (some 60) true (some track60) DeckState.playing 1 1 0 1 0).getCurrentTime 11
      = 10
    rw [getCurrentTime_eval]
    norm_num [min_def]
  have hfin : mixWitnessDeck.isFinished 11 = false := by
    simp only [Deck.isFinished, hct]
    norm_num [show mixWitnessDeck.audioBuffer = some 60 from rfl]
  refine ⟨?_, hfin, ?_⟩ <;>
    simp [autoAdvanceStep, QueueManager.length, QueueManager.getActiveItem, hfin]

/-! ### Load-failure semantics (`Deck.loadTrack`, C6) -/

/-- A track whose sample blob fails to decode. -/
def badTrack : Track :=
  { id := "bad", name := "Bad", audioBlobDecode := none,
    beatMap := { timeSignature := ⟨4, 4⟩, tempoEvents := [⟨0, 120, 0⟩],
                 ticksPerBeat := 480 },
    duration := 30 }

/-- C6 counterexample: loading a non-decodable track into a fresh idle
deck propagates the failure (rejected promise), but the deck's lifecycle
state is NOT the same afterwards — `loadTrack` set it to `loading` (and
`this.track` to the failed track) before awaiting the decode, and the
rejection skips the restoring writes. -/
theorem loadTrack_atomicity_counterexample :
    (({} : Deck).loadTrack badTrack).2 = false
      ∧ (({} : Deck).loadTrack badTrack).1.state = DeckState.loading
      ∧ ({} : Deck).state = DeckState.idle
      ∧ (({} : Deck).loadTrack badTrack).1.state ≠ ({} : Deck).state
      ∧ (({} : Deck).loadTrack badTrack).1.track ≠ ({} : Deck).track := by
  refine ⟨rfl, rfl, rfl, ?_, ?_⟩ <;> simp [Deck.loadTrack, badTrack]

/-- C6 (amended): when the sample buffer fails to decode, `loadTrack`
propagates the failure to the caller as a rejected operation and leaves
the audio buffer (and the position/volume/rate bookkeeping and processor)
unchanged, but it is not atomic: the lifecycle state is left at
`loading` and the loaded track field points at the failed track. -/
theorem loadTrack_failure_not_atomic (d : Deck) (t : Track)
    (hfail : t.audioBlobDecode = none) :
    (d.loadTrack t).2 = false
      ∧ (d.loadTrack t).1.audioBuffer = d.audioBuffer
      ∧ (d.loadTrack t).1.state = DeckState.loading
      ∧ (d.loadTrack t).1.track = some t
      ∧ (d.loadTrack t).1.shifter = d.shifter
      ∧ (d.loadTrack t).1.playbackRate = d.playbackRate
      ∧ (d.loadTrack t).1.volume = d.volume
      ∧ (d.loadTrack t).1.pausedAt = d.pausedAt
      ∧ (d.loadTrack t).1.playStartAudioTime = d.playStartAudioTime
      ∧ (d.loadTrack t).1.accumulatedOffset = d.accumulatedOffset := by
  simp [Deck.loadTrack, hfail]

/-- Witness for C6 at a fresh deck and the concrete failing track. -/
theorem loadTrack_failure_not_atomic_witness :
    badTrack.audioBlobDecode = none
      ∧ (({} : Deck).loadTrack badTrack).2 = false
      ∧ (({} : Deck).loadTrack badTrack).1.state = DeckState.loading :=
  ⟨rfl, (loadTrack_failure_not_atomic ({} : Deck) badTrack rfl).1,
    (loadTrack_failure_not_atomic ({} : Deck) badTrack rfl).2.2.1⟩

/-! ### Aliasing of `getQueue()` (`QueueManager.getQueue`, C10)

`getQueue()` is `return [...this.queue]`.  To state what a *fresh shallow
copy* means (a distinct array object whose later mutation leaves the
manager's internal array untouched), JS array identity is modelled by a
small heap: a store of arrays addressed by `ℕ`, with the manager's
`queue` field holding an address into it. -/

/-- Store of JS arrays of queue items, addressed by allocation order. -/
structure ArrayHeap where
  arrays : List (List QueueItem)
  deriving DecidableEq, Repr

/-- Contents of the array at address `a` (empty for a dangling address). -/
def ArrayHeap.get (h : ArrayHeap) (a : ℕ) : List QueueItem :=
  (h.arrays[a]?).getD []

/-- In-place mutation of the array at address `a` (covers appending,
removing and reordering its entries: any new contents). -/
def ArrayHeap.set (h : ArrayHeap) (a : ℕ) (v : List QueueItem) : ArrayHeap :=
  ⟨h.arrays.set a v⟩

/-- Allocation of a fresh array: returns the heap with the new array and
its (fresh) address. -/
def ArrayHeap.alloc (h : ArrayHeap) (v : List QueueItem) : ArrayHeap × ℕ :=
  (⟨h.arrays ++ [v]⟩, h.arrays.length)

/-- `QueueManager` with its `queue` array held by reference. -/
structure QueueManagerRef where
  queueRef : ℕ
  activeItem : Option QueueItem := none
  idCounter : ℕ := 0
  deriving DecidableEq, Repr

/-- `getQueue()`: `return [...this.queue]` — allocates a fresh array with
the same elements and returns its address. -/
def QueueManagerRef.getQueue (qm : QueueManagerRef) (h : ArrayHeap) :
    ArrayHeap × ℕ :=
  h.alloc (h.get qm.queueRef)

/-- `get length()` read against the heap. -/
def QueueManagerRef.length (qm : QueueManagerRef) (h : ArrayHeap) : ℕ :=
  (h.get qm.queueRef).length

/-- `shift()` against the heap: removes the front of the internal array
in place and returns it. -/
def QueueManagerRef.shift (qm : QueueManagerRef) (h : ArrayHeap) :
    ArrayHeap × Option QueueItem :=
  match h.get qm.queueRef with
  | [] => (h, none)
  | x :: xs => (h.set qm.queueRef xs, some x)

/-- C10: for every heap in which the manager's address is live,
`getQueue()` returns a fresh array — a distinct address — whose contents
equal the internal queue's contents; the copy leaves the internal array
unchanged, and overwriting the returned array with any contents leaves
the internal queue, as observed by `get`, `length`, `shift` and a
subsequent `getQueue`, exactly as before. -/
theorem getQueue_fresh_copy (qm : QueueManagerRef) (h : ArrayHeap)
    (hvalid : qm.queueRef < h.arrays.length) :
    (qm.getQueue h).2 ≠ qm.queueRef
      ∧ (qm.getQueue h).1.get (qm.getQueue h).2 = h.get qm.queueRef
      ∧ (qm.getQueue h).1.get qm.queueRef = h.get qm.queueRef
      ∧ ∀ v : List QueueItem,
          ((qm.getQueue h).1.set (qm.getQueue h).2 v).get qm.queueRef
              = h.get qm.queueRef
            ∧ qm.length ((qm.getQueue h).1.set (qm.getQueue h).2 v) = qm.length h
            ∧ (qm.shift ((qm.getQueue h).1.set (qm.getQueue h).2 v)).2
                = (qm.shift h).2
            ∧ (qm.getQueue ((qm.getQueue h).1.set (qm.getQueue h).2 v)).1.get
                  (qm.getQueue ((qm.getQueue h).1.set (qm.getQueue h).2 v)).2
                = h.get qm.queueRef := by
  have haddr : (qm.getQueue h).2 = h.arrays.length := rfl
  have hne : (qm.getQueue h).2 ≠ qm.queueRef := by
    rw [haddr]
    exact fun hc => absurd (hc ▸ hvalid) (lt_irrefl h.arrays.length)
  have hold : (qm.getQueue h).1.get qm.queueRef = h.get qm.queueRef := by
    simp only [QueueManagerRef.getQueue, ArrayHeap.alloc, ArrayHeap.get]
    rw [List.getElem?_append_left hvalid]
  have hnew : (qm.getQueue h).1.get (qm.getQueue h).2 = h.get qm.queueRef := by
    simp only [QueueManagerRef.getQueue, ArrayHeap.alloc, ArrayHeap.get]
    rw [List.getElem?_concat_length]
    rfl
  have hset : ∀ v : List QueueItem,
      ((qm.getQueue h).1.set (qm.getQueue h).2 v).get qm.queueRef
        = h.get qm.queueRef := by
    intro v
    have hstep : ((qm.getQueue h).1.set (qm.getQueue h).2 v).get qm.queueRef
        = (qm.getQueue h).1.get qm.queueRef := by
      simp only [ArrayHeap.set, ArrayHeap.get]
      rw [List.getElem?_set_ne hne]
    rw [hstep, hold]
  refine ⟨hne, hnew, hold, fun v => ⟨hset v, ?_, ?_, ?_⟩⟩
  · rw [QueueManagerRef.length, QueueManagerRef.length, hset v]
  · rw [QueueManagerRef.shift, QueueManagerRef.shift, hset v]
    cases h.get qm.queueRef <;> rfl
  · have hvalid2 : qm.queueRef
        < (((qm.getQueue h).1.set (qm.getQueue h).2 v)).arrays.length := by
      simp only [QueueManagerRef.getQueue, ArrayHeap.alloc, ArrayHeap.set,
        List.length_set, List.length_append]
      omega
    have hcopy : ((qm.getQueue ((qm.getQueue h).1.set (qm.getQueue h).2 v)).1).get
        (qm.getQueue ((qm.getQueue h).1.set (qm.getQueue h).2 v)).2
        = ((qm.getQueue h).1.set (qm.getQueue h).2 v).get qm.queueRef := by
      simp only [QueueManagerRef.getQueue, ArrayHeap.alloc, ArrayHeap.get]
      rw [List.getElem?_concat_length]
      rfl
    rw [hcopy, hset v]

/-- Witness for C10 at a concrete one-array heap holding an empty queue. -/
theorem getQueue_fresh_copy_witness :
    (QueueManagerRef.mk 0 none 0).queueRef < (ArrayHeap.mk [[]]).arrays.length
      ∧ ((QueueManagerRef.mk 0 none 0).getQueue (ArrayHeap.mk [[]])).2 ≠ 0 :=
  ⟨by norm_num,
    (getQueue_fresh_copy (QueueManagerRef.mk 0 none 0) (ArrayHeap.mk [[]])
      (by norm_num)).1⟩

/-- Witness for C8 at a concrete state (phase `playing`, empty queue and
active slot, nothing preparing, flag unset, callback registered): the
equivalence yields that the callback fires on this tick. -/
theorem auto_advance_once_witness :
    (autoAdvanceStep TransitionPhase.playing {} false false true none 0).2.2 = true :=
  (auto_advance_once TransitionPhase.playing {} false false true none 0).1.mpr
    ⟨rfl, rfl, rfl, rfl, rfl, rfl⟩
